import Mathlib

/-!
Verification development for the image-sync tool (`sync_imgs.py`).

The program has four parts, all modelled here as a shallow embedding:

* the path cache (`load_config` / `save_config`), a flat `String → String`
  mapping persisted as pretty-printed JSON (`json.dump(..., indent=4,
  ensure_ascii=False)` / `json.load`);
* the image scanner (`sync_images`), a directory walk that uploads image
  files whose key is not yet cached and then persists and reloads the cache;
* the markdown rewriter (`replace_img_urls_in_md` / `replace_all_md_images`),
  which extracts image targets from each line with the regex `IMGPATTERN`,
  looks them up in the cache and substitutes the hosted URL;
* the upload client (`SMMSClient.upload`), which interprets the JSON response
  of the remote service.

Filesystem state (the cache backing file, the markdown files) is passed
explicitly; functions that the Python source lets raise exceptions return
`Except String`.  `os.walk` is modelled by the list of files it yields, each
given by its directory path relative to the image root plus its file name,
with POSIX path separators.  The Python `json` library calls are modelled by
an executable serializer and parser for exactly the documents `save_config`
writes: a top-level object whose values are strings.
-/

/-- The in-memory cache `self.config`: a Python `dict` from the relative
image path to the hosted URL, with unique keys in insertion order. -/
abbrev Cache := List (String × String)

/-! ## JSON string escaping, as `json.dump` emits it (`ensure_ascii=False`) -/

/-- Hex digit character for `n < 16`, lowercase as CPython `json` emits. -/
def hexDigit (n : Nat) : Char :=
  if n < 10 then Char.ofNat (48 + n) else Char.ofNat (87 + n)

/-- Escape a single character inside a JSON string literal, following
CPython `json.encoder` with `ensure_ascii=False`: quote, backslash and the
named control escapes get a two-character escape, the remaining control
characters a `\u00XX` escape, everything else is emitted literally. -/
def escChar (c : Char) : List Char :=
  if c = '"' then ['\\', '"']
  else if c = '\\' then ['\\', '\\']
  else if c = '\x08' then ['\\', 'b']
  else if c = '\x09' then ['\\', 't']
  else if c = '\x0a' then ['\\', 'n']
  else if c = '\x0c' then ['\\', 'f']
  else if c = '\x0d' then ['\\', 'r']
  else if c.toNat < 32 then
    ['\\', 'u', '0', '0', hexDigit (c.toNat / 16), hexDigit (c.toNat % 16)]
  else [c]

/-- Escape every character of a string body. -/
def escList : List Char → List Char
  | [] => []
  | c :: cs => escChar c ++ escList cs

/-- Value of a hex digit character, accepting both cases as `json` does. -/
def hexVal (c : Char) : Option Nat :=
  if 48 ≤ c.toNat ∧ c.toNat ≤ 57 then some (c.toNat - 48)
  else if 97 ≤ c.toNat ∧ c.toNat ≤ 102 then some (c.toNat - 87)
  else if 65 ≤ c.toNat ∧ c.toNat ≤ 70 then some (c.toNat - 55)
  else none

/-- Inverse of the two-character escapes recognised by the JSON grammar. -/
def unescChar (c : Char) : Option Char :=
  if c = '"' then some '"'
  else if c = '\\' then some '\\'
  else if c = '/' then some '/'
  else if c = 'b' then some '\x08'
  else if c = 't' then some '\x09'
  else if c = 'n' then some '\x0a'
  else if c = 'f' then some '\x0c'
  else if c = 'r' then some '\x0d'
  else none

/-- Parse the body of a JSON string literal after its opening quote,
returning the decoded characters and the input after the closing quote. -/
def parseStr : List Char → Option (List Char × List Char)
  | [] => none
  | c :: rest =>
    if c = '"' then some ([], rest)
    else if c = '\\' then
      match rest with
      | 'u' :: h1 :: h2 :: h3 :: h4 :: r =>
        match hexVal h1, hexVal h2, hexVal h3, hexVal h4 with
        | some a, some b, some c2, some d =>
          (parseStr r).map
            (fun p => (Char.ofNat (4096 * a + 256 * b + 16 * c2 + d) :: p.1, p.2))
        | _, _, _, _ => none
      | e :: r =>
        match unescChar e with
        | some ch => (parseStr r).map (fun p => (ch :: p.1, p.2))
        | none => none
      | [] => none
    else (parseStr rest).map (fun p => (c :: p.1, p.2))

/-- JSON insignificant whitespace. -/
def isJsonWs (c : Char) : Bool :=
  c = ' ' || c = '\x09' || c = '\x0a' || c = '\x0d'

/-- Drop insignificant whitespace. -/
def skipWs (s : List Char) : List Char :=
  s.dropWhile isJsonWs

/-- Parse the members of a JSON object of string values, positioned at the
opening quote of a key; consumes the closing brace.  The fuel bounds the
number of members and is instantiated with the input length. -/
def parseMembers : Nat → List Char → Option (Cache × List Char)
  | 0, _ => none
  | fuel + 1, s =>
    match s with
    | '"' :: s1 =>
      match parseStr s1 with
      | none => none
      | some (k, s2) =>
        match skipWs s2 with
        | ':' :: s3 =>
          match skipWs s3 with
          | '"' :: s4 =>
            match parseStr s4 with
            | none => none
            | some (v, s5) =>
              match skipWs s5 with
              | ',' :: s6 =>
                (parseMembers fuel (skipWs s6)).map
                  (fun p => ((String.mk k, String.mk v) :: p.1, p.2))
              | '}' :: s6 => some ([(String.mk k, String.mk v)], s6)
              | _ => none
          | _ => none
        | _ => none
    | _ => none

/-- Model of `json.load` restricted to the documents this program ever
persists: a single object whose values are strings.  Returns `none` on
malformed input (where `json.load` raises). -/
def parseJson (s : String) : Option Cache :=
  match skipWs s.data with
  | '{' :: r =>
    match skipWs r with
    | '}' :: r2 => if skipWs r2 = [] then some [] else none
    | '"' :: r1 =>
      match parseMembers (r1.length + 1) ('"' :: r1) with
      | some (m, rest) => if skipWs rest = [] then some m else none
      | none => none
    | _ => none
  | _ => none

/-- One `"key": "value"` member as `json.dump` renders it. -/
def entryChars (p : String × String) : List Char :=
  '"' :: (escList p.1.data ++ '"' :: ':' :: ' ' :: '"' :: (escList p.2.data ++ ['"']))

/-- The member list joined by `,\n    `, the separator `json.dump` uses at
`indent=4`. -/
def membersChars : Cache → List Char
  | [] => []
  | [p] => entryChars p
  | p :: q :: t =>
    entryChars p ++ ',' :: '\x0a' :: ' ' :: ' ' :: ' ' :: ' ' :: membersChars (q :: t)

/-- Model of `json.dump(self.config, f, indent=4, ensure_ascii=False)`:
the exact text written to the backing file. -/
def dumpJson (m : Cache) : String :=
  match m with
  | [] => "\x7b\x7d"
  | _ =>
    String.mk ('{' :: '\x0a' :: ' ' :: ' ' :: ' ' :: ' ' ::
      (membersChars m ++ ['\x0a', '}']))

/-- The backing file: `none` when `config_path` does not exist, otherwise
its text content. -/
abbrev Disk := Option String

/-- `ImageMarkdownSync.load_config`: missing file and zero-size file both
yield an empty mapping; otherwise the content is parsed as JSON, and a parse
failure propagates as an error. -/
def load_config (disk : Disk) : Except String Cache :=
  match disk with
  | none => .ok []
  | some s =>
    if s.length = 0 then .ok []
    else
      match parseJson s with
      | some m => .ok m
      | none => .error "json parse error"

/-- `ImageMarkdownSync.save_config`: overwrite the backing file with the
serialized mapping. -/
def save_config (cfg : Cache) : Disk :=
  some (dumpJson cfg)

/-! ## Round-trip of the JSON serialization -/

theorem strMkData (s : String) : String.mk s.data = s := by
  cases s
  rfl

theorem hexVal_hexDigit (n : Nat) (h : n < 16) : hexVal (hexDigit n) = some n := by
  interval_cases n <;> decide

theorem parseStr_lit (c : Char) (rest : List Char) (h1 : ¬c = '"')
    (h2 : ¬c = '\\') :
    parseStr (c :: rest) = (parseStr rest).map (fun p => (c :: p.1, p.2)) := by
  rw [parseStr.eq_def]
  simp [h1, h2]

theorem escChar_parse (c : Char) (s rest : List Char)
    (ih : parseStr (escList s ++ '"' :: rest) = some (s, rest)) :
    parseStr (escChar c ++ (escList s ++ '"' :: rest)) = some (c :: s, rest) := by
  rw [escChar]
  by_cases hq : c = '"'
  · subst hq
    simp [parseStr, unescChar, ih]
  · rw [if_neg hq]
    by_cases hb : c = '\\'
    · subst hb
      simp [parseStr, unescChar, ih]
    · rw [if_neg hb]
      by_cases h08 : c = '\x08'
      · subst h08
        simp [parseStr, unescChar, ih]
      · rw [if_neg h08]
        by_cases h09 : c = '\x09'
        · subst h09
          simp [parseStr, unescChar, ih]
        · rw [if_neg h09]
          by_cases h0a : c = '\x0a'
          · subst h0a
            simp [parseStr, unescChar, ih]
          · rw [if_neg h0a]
            by_cases h0c : c = '\x0c'
            · subst h0c
              simp [parseStr, unescChar, ih]
            · rw [if_neg h0c]
              by_cases h0d : c = '\x0d'
              · subst h0d
                simp [parseStr, unescChar, ih]
              · rw [if_neg h0d]
                by_cases hctl : c.toNat < 32
                · rw [if_pos hctl]
                  have hu : ¬('\\' : Char) = '"' := by decide
                  simp only [List.cons_append, List.nil_append]
                  rw [parseStr.eq_def]
                  simp only [if_neg hu, if_pos rfl]
                  have hd1 : hexVal (hexDigit (c.toNat / 16)) = some (c.toNat / 16) :=
                    hexVal_hexDigit _ (by omega)
                  have hd2 : hexVal (hexDigit (c.toNat % 16)) = some (c.toNat % 16) :=
                    hexVal_hexDigit _ (by
                      exact Nat.mod_lt _ (by omega))
                  have h0 : hexVal '0' = some 0 := by decide
                  simp only [h0, hd1, hd2, ih, Option.map_some]
                  have hmod : 4096 * 0 + 256 * 0 + 16 * (c.toNat / 16) + c.toNat % 16
                      = c.toNat := by omega
                  rw [hmod, Char.ofNat_toNat]
                  simp
                · rw [if_neg hctl]
                  simp only [List.singleton_append]
                  rw [parseStr_lit c _ hq hb, ih]
                  rfl

theorem escList_parse (s rest : List Char) :
    parseStr (escList s ++ '"' :: rest) = some (s, rest) := by
  induction s with
  | nil =>
    rw [escList, List.nil_append, parseStr.eq_def]
    simp
  | cons c cs ih =>
    rw [escList, List.append_assoc]
    exact escChar_parse c cs rest ih

theorem skipWs_cons_of_not_ws (c : Char) (s : List Char) (h : isJsonWs c = false) :
    skipWs (c :: s) = c :: s := by
  simp [skipWs, List.dropWhile_cons, h]

theorem membersChars_head (q : String × String) (t : Cache) :
    ∃ w, membersChars (q :: t) = '"' :: w := by
  cases t with
  | nil => exact ⟨_, rfl⟩
  | cons r t2 => exact ⟨_, rfl⟩

theorem membersChars_len (m : Cache) : m.length ≤ (membersChars m).length := by
  induction m with
  | nil => simp [membersChars]
  | cons p t ih =>
    cases t with
    | nil => simp [membersChars, entryChars]
    | cons q t2 =>
      rw [membersChars]
      simp only [List.length_append, List.length_cons]
      simp only [List.length_cons] at ih ⊢
      omega

theorem skipWs_sp (s : List Char) : skipWs (' ' :: s) = skipWs s := by
  simp [skipWs, List.dropWhile_cons, isJsonWs]

theorem skipWs_nl (s : List Char) : skipWs ('\x0a' :: s) = skipWs s := by
  simp [skipWs, List.dropWhile_cons, isJsonWs]

theorem skipWs_colon (s : List Char) : skipWs (':' :: s) = ':' :: s :=
  skipWs_cons_of_not_ws _ _ (by decide)

theorem skipWs_comma (s : List Char) : skipWs (',' :: s) = ',' :: s :=
  skipWs_cons_of_not_ws _ _ (by decide)

theorem skipWs_rbrace (s : List Char) : skipWs ('}' :: s) = '}' :: s :=
  skipWs_cons_of_not_ws _ _ (by decide)

theorem skipWs_lbrace (s : List Char) : skipWs ('{' :: s) = '{' :: s :=
  skipWs_cons_of_not_ws _ _ (by decide)

theorem skipWs_quote (s : List Char) : skipWs ('"' :: s) = '"' :: s :=
  skipWs_cons_of_not_ws _ _ (by decide)

theorem parseMembers_dump (t : Cache) (p : String × String) (fuel : Nat)
    (rest : List Char) (hf : t.length + 1 ≤ fuel + 1) :
    parseMembers (fuel + 1) (membersChars (p :: t) ++ '\x0a' :: '}' :: rest)
      = some (p :: t, rest) := by
  induction t generalizing p fuel rest with
  | nil =>
    rw [membersChars, entryChars]
    simp only [List.cons_append, List.append_assoc, List.singleton_append,
      List.nil_append]
    rw [parseMembers, escList_parse]
    simp only [skipWs_colon, skipWs_sp, skipWs_quote, escList_parse,
      skipWs_nl, skipWs_rbrace, strMkData]
  | cons q t2 ih =>
    rw [membersChars, entryChars]
    simp only [List.cons_append, List.append_assoc, List.singleton_append,
      List.nil_append]
    rw [parseMembers, escList_parse]
    obtain ⟨w, hw⟩ := membersChars_head q t2
    rw [hw]
    simp only [List.cons_append]
    simp only [skipWs_colon, skipWs_sp, skipWs_quote, escList_parse,
      skipWs_nl, skipWs_comma, strMkData]
    have hfuel : ∃ f2, fuel = f2 + 1 := by
      simp only [List.length_cons] at hf
      exact ⟨fuel - 1, by omega⟩
    obtain ⟨f2, hf2⟩ := hfuel
    subst hf2
    have := ih q f2 rest (by simp only [List.length_cons] at hf ⊢; omega)
    rw [hw] at this
    simp only [List.cons_append] at this
    rw [this]
    simp [strMkData]

theorem parseJson_dumpJson (m : Cache) : parseJson (dumpJson m) = some m := by
  cases m with
  | nil => rfl
  | cons p t =>
    have hd : dumpJson (p :: t) = String.mk ('{' :: '\x0a' :: ' ' :: ' ' :: ' ' ::
        ' ' :: (membersChars (p :: t) ++ ['\x0a', '}'])) := rfl
    rw [hd]
    rw [parseJson.eq_def]
    have hdata : (String.mk ('{' :: '\x0a' :: ' ' :: ' ' :: ' ' :: ' ' ::
        (membersChars (p :: t) ++ ['\x0a', '}']))).data
        = '{' :: '\x0a' :: ' ' :: ' ' :: ' ' :: ' ' ::
          (membersChars (p :: t) ++ ['\x0a', '}']) := rfl
    rw [hdata, skipWs_lbrace]
    obtain ⟨w, hw⟩ := membersChars_head p t
    rw [hw]
    simp only [List.cons_append, skipWs_nl, skipWs_sp, skipWs_quote]
    have hlen : (p :: t).length ≤ (w ++ ['\x0a', '}']).length := by
      have h1 := membersChars_len (p :: t)
      rw [hw] at h1
      simp only [List.length_cons, List.length_append] at h1 ⊢
      omega
    have hm := parseMembers_dump t p ((w ++ ['\x0a', '}']).length) []
      (by simp only [List.length_cons] at hlen ⊢; omega)
    rw [hw] at hm
    simp only [List.cons_append] at hm
    simp only [hm]
    rfl

theorem saveLoadAux (m : Cache) : load_config (save_config m) = .ok m := by
  rw [save_config, load_config]
  have hne : ¬(dumpJson m).length = 0 := by
    cases m with
    | nil => decide
    | cons p t =>
      have hd : dumpJson (p :: t) = String.mk ('{' :: '\x0a' :: ' ' :: ' ' :: ' ' ::
          ' ' :: (membersChars (p :: t) ++ ['\x0a', '}'])) := rfl
      rw [hd]
      intro h
      simp [String.length] at h
  rw [if_neg hne, parseJson_dumpJson]

/-- C4.  `save_config` followed by `load_config` on the same backing file
returns exactly the mapping that was saved, for every mapping of string
keys to string values. -/
theorem save_load_roundtrip (m : Cache) : load_config (save_config m) = .ok m :=
  saveLoadAux m

/-- C5. `load_config` on a missing backing file returns the empty mapping,
and `load_config` on an existing zero-length backing file also returns the
empty mapping; neither is an error. -/
theorem load_missing_or_empty :
    load_config none = .ok [] ∧ load_config (some "") = .ok [] :=
  ⟨rfl, rfl⟩

/-! ## Python string primitives used by the scanner and rewriter -/

/-- Does `s` start with the pattern `pat`?  Model of `str.startswith`
restricted to list form. -/
def startsList : List Char → List Char → Bool
  | [], _ => true
  | _ :: _, [] => false
  | p :: ps, c :: cs => p == c && startsList ps cs

/-- `str.startswith`. -/
def pyStartsWith (s pat : String) : Bool :=
  startsList pat.data s.data

/-- Does `s` end with `suf`?  Used for the extension test. -/
def endsList (s suf : List Char) : Bool :=
  startsList suf.reverse s.reverse

/-- Worker for `str.replace`: scan left to right, replacing each
non-overlapping occurrence of `old`.  The fuel is the input length; `old`
is nonempty at every call site, so each step consumes at least one
character and the fuel never runs out. -/
def replaceAux (old new : List Char) : Nat → List Char → List Char
  | _, [] => []
  | 0, s => s
  | fuel + 1, c :: rest =>
    if startsList old (c :: rest) then
      new ++ replaceAux old new fuel ((c :: rest).drop old.length)
    else
      c :: replaceAux old new fuel rest

/-- `str.replace(old, new)`: replace every non-overlapping occurrence,
scanning left to right.  (CPython treats an empty `old` specially; the
program only ever calls this with a nonempty `old`, and we keep the
argument unchanged in that degenerate case.) -/
def pyReplace (s old new : String) : String :=
  if old.data = [] then s
  else String.mk (replaceAux old.data new.data s.data.length s.data)

/-! ## Image scanner (`ImageMarkdownSync.sync_images`) -/

/-- The extension tuple of `sync_images`. -/
def IMG_EXTS : List String := [".png", ".jpg", ".jpeg", ".gif", ".bmp", ".webp"]

/-- `fname.lower().endswith(IMG_EXTS tuple)`.  `str.lower` is modelled by
the ASCII `Char.toLower`; the extensions compared against are ASCII. -/
def isImageFile (fname : String) : Bool :=
  IMG_EXTS.any (fun e => endsList (fname.data.map Char.toLower) e.data)

/-- One file yielded by `os.walk(self.img_dir)`: the path of its directory
relative to the image root (one component per directory level, POSIX
separators) and the file name. -/
structure ImgFile where
  dirs : List String
  fname : String
deriving DecidableEq

/-- Join path components with the POSIX separator. -/
def joinSlash : List String → String
  | [] => ""
  | [p] => p
  | p :: q :: t => p ++ "/" ++ joinSlash (q :: t)

/-- Line 42 of the source: the cache key of a file.  `img_dir_abs` is the
parent of the image root, so `os.path.relpath(abs_path, img_dir_abs)` is
the image-root basename followed by the path inside the root; backslashes
are replaced with forward slashes and a leading slash is prepended. -/
def relKey (base : String) (f : ImgFile) : String :=
  "/" ++ pyReplace (joinSlash (base :: (f.dirs ++ [f.fname]))) "\\" "/"

/-- The absolute path handed to the upload client:
`parentAbs/base/dirs/fname`. -/
def absPathOf (parentAbs base : String) (f : ImgFile) : String :=
  joinSlash (parentAbs :: base :: (f.dirs ++ [f.fname]))

/-- The walk-and-upload loop of `sync_images` (lines 38 to 45): for every
file with an image extension, compute its key; skip it when the key is
already cached, otherwise call the upload client and record the returned
URL under the key.  Returns the updated cache and the list of paths that
were uploaded; an upload error aborts the loop. -/
def scanImages (upload : String → Except String String) (parentAbs base : String) :
    List ImgFile → Cache → Except String (Cache × List String)
  | [], cfg => .ok (cfg, [])
  | f :: fs, cfg =>
    if isImageFile f.fname then
      match List.lookup (relKey base f) cfg with
      | some _ => scanImages upload parentAbs base fs cfg
      | none =>
        match upload (absPathOf parentAbs base f) with
        | .error e => .error e
        | .ok url =>
          match scanImages upload parentAbs base fs
              (cfg ++ [(relKey base f, url)]) with
          | .error e => .error e
          | .ok (c, us) => .ok (c, absPathOf parentAbs base f :: us)
    else scanImages upload parentAbs base fs cfg

/-- `sync_images` in full (lines 33 to 48): run the walk-and-upload loop,
then persist the cache to the backing file and reload it from there.  The
final machine state pairs the Python-level outcome (the reloaded cache and
the uploaded paths, or the propagated exception) with the content of the
backing file, which an exception leaves untouched. -/
def sync_images (upload : String → Except String String) (parentAbs base : String)
    (files : List ImgFile) (cfg : Cache) (disk : Disk) :
    Except String (Cache × List String) × Disk :=
  match scanImages upload parentAbs base files cfg with
  | .error e => (.error e, disk)
  | .ok (cfg1, ups) =>
    match load_config (save_config cfg1) with
    | .error e => (.error e, save_config cfg1)
    | .ok cfg2 => (.ok (cfg2, ups), save_config cfg1)

/-! ## Lookup helpers for the cache viewed as an association list -/

theorem lookup_append_some (k v : String) (l1 l2 : Cache)
    (h : List.lookup k l1 = some v) : List.lookup k (l1 ++ l2) = some v := by
  induction l1 with
  | nil => simp at h
  | cons a t ih =>
    rw [List.lookup] at h
    rw [List.cons_append, List.lookup]
    cases hk : (k == a.1) with
    | true => simp only [hk] at h ⊢; exact h
    | false => simp only [hk] at h ⊢; exact ih h

theorem lookup_append_none (k : String) (l1 l2 : Cache)
    (h : List.lookup k l1 = none) : List.lookup k (l1 ++ l2) = List.lookup k l2 := by
  induction l1 with
  | nil => simp
  | cons a t ih =>
    rw [List.lookup] at h
    rw [List.cons_append, List.lookup]
    cases hk : (k == a.1) with
    | true => simp only [hk] at h; exact absurd h (by simp)
    | false => simp only [hk] at h ⊢; exact ih h

theorem lookup_append_none_inv (k : String) (l1 l2 : Cache)
    (h : List.lookup k (l1 ++ l2) = none) : List.lookup k l1 = none := by
  cases hc : List.lookup k l1 with
  | none => rfl
  | some v => rw [lookup_append_some k v l1 l2 hc] at h; exact absurd h (by simp)

/-! ## Structure of a successful scan -/

theorem scanImages_decomp (u : String → Except String String) (p b : String)
    (files : List ImgFile) (cfg cfg1 : Cache) (ups : List String)
    (h : scanImages u p b files cfg = .ok (cfg1, ups)) :
    ∃ ext, cfg1 = cfg ++ ext ∧ ∀ q ∈ ext, List.lookup q.1 cfg = none := by
  induction files generalizing cfg ups with
  | nil =>
    rw [scanImages] at h
    simp only [Except.ok.injEq, Prod.mk.injEq] at h
    exact ⟨[], by simp [h.1.symm], by simp⟩
  | cons f fs ih =>
    rw [scanImages] at h
    by_cases himg : isImageFile f.fname
    · rw [if_pos himg] at h
      cases hlk : List.lookup (relKey b f) cfg with
      | some v =>
        simp only [hlk] at h
        exact ih cfg ups h
      | none =>
        simp only [hlk] at h
        cases hup : u (absPathOf p b f) with
        | error e => simp only [hup] at h; exact absurd h (by simp)
        | ok url =>
          simp only [hup] at h
          cases hs : scanImages u p b fs (cfg ++ [(relKey b f, url)]) with
          | error e => simp only [hs] at h; exact absurd h (by simp)
          | ok r =>
            obtain ⟨c2, us2⟩ := r
            simp only [hs, Except.ok.injEq, Prod.mk.injEq] at h
            rw [h.1] at hs
            obtain ⟨ext2, he, hext2⟩ := ih _ _ hs
            refine ⟨(relKey b f, url) :: ext2, ?_, ?_⟩
            · rw [he]; simp
            · intro q hq
              cases hq with
              | head => exact hlk
              | tail _ hq2 =>
                have := hext2 q hq2
                exact lookup_append_none_inv _ _ _ this
    · rw [if_neg himg] at h
      exact ih cfg ups h

theorem scanPreservesAux (u : String → Except String String) (p b : String)
    (files : List ImgFile) (cfg cfg1 : Cache) (ups : List String)
    (h : scanImages u p b files cfg = .ok (cfg1, ups)) :
    (∀ k v, List.lookup k cfg = some v → List.lookup k cfg1 = some v) ∧
      ∃ ext, cfg1 = cfg ++ ext ∧ ∀ q ∈ ext, List.lookup q.1 cfg = none := by
  obtain ⟨ext, he, hext⟩ := scanImages_decomp u p b files cfg cfg1 ups h
  refine ⟨?_, ext, he, hext⟩
  intro k v hk
  rw [he]
  exact lookup_append_some k v cfg ext hk

theorem scanImages_covers (u : String → Except String String) (p b : String)
    (files : List ImgFile) (cfg cfg1 : Cache) (ups : List String)
    (h : scanImages u p b files cfg = .ok (cfg1, ups)) :
    ∀ f ∈ files, isImageFile f.fname = true →
      (List.lookup (relKey b f) cfg1).isSome = true := by
  induction files generalizing cfg ups with
  | nil => intro f hf; exact absurd hf (by simp)
  | cons g fs ih =>
    intro f hf himgf
    rw [scanImages] at h
    by_cases himg : isImageFile g.fname
    · rw [if_pos himg] at h
      cases hlk : List.lookup (relKey b g) cfg with
      | some v =>
        simp only [hlk] at h
        cases hf with
        | head =>
          have hpres := (scanPreservesAux u p b fs cfg cfg1 ups h).1
          rw [hpres (relKey b g) v hlk]
          rfl
        | tail _ hf2 => exact ih cfg ups h f hf2 himgf
      | none =>
        simp only [hlk] at h
        cases hup : u (absPathOf p b g) with
        | error e => simp only [hup] at h; exact absurd h (by simp)
        | ok url =>
          simp only [hup] at h
          cases hs : scanImages u p b fs (cfg ++ [(relKey b g, url)]) with
          | error e => simp only [hs] at h; exact absurd h (by simp)
          | ok r =>
            obtain ⟨c2, us2⟩ := r
            simp only [hs, Except.ok.injEq, Prod.mk.injEq] at h
            rw [h.1] at hs
            cases hf with
            | head =>
              have hmem : List.lookup (relKey b g) (cfg ++ [(relKey b g, url)])
                  = some url := by
                rw [lookup_append_none _ _ _ hlk]
                simp [List.lookup]
              have hpres := (scanPreservesAux u p b fs _ cfg1 us2 hs).1
              rw [hpres (relKey b g) url hmem]
              rfl
            | tail _ hf2 => exact ih _ us2 hs f hf2 himgf
    · rw [if_neg himg] at h
      cases hf with
      | head => exact absurd himgf (by simp [himg])
      | tail _ hf2 => exact ih cfg ups h f hf2 himgf

theorem scanImages_skip (u : String → Except String String) (p b : String)
    (files : List ImgFile) (cfg : Cache)
    (h : ∀ f ∈ files, isImageFile f.fname = true →
      (List.lookup (relKey b f) cfg).isSome = true) :
    scanImages u p b files cfg = .ok (cfg, []) := by
  induction files with
  | nil => rfl
  | cons f fs ih =>
    rw [scanImages]
    by_cases himg : isImageFile f.fname
    · rw [if_pos himg]
      have hs := h f (by simp) himg
      cases hlk : List.lookup (relKey b f) cfg with
      | none => rw [hlk] at hs; simp at hs
      | some v =>
        simp only [hlk]
        exact ih (fun g hg => h g (by simp [hg]))
    · rw [if_neg himg]
      exact ih (fun g hg => h g (by simp [hg]))

/-- C9.  The scan phase of `sync_images` never removes or rewrites an
existing cache entry: every key of the in-memory cache before the scan is
still present afterwards and mapped to the same value, and the scan only
adds entries for keys that were not already present. -/
theorem sync_scan_preserves_entries (u : String → Except String String)
    (p b : String) (files : List ImgFile) (cfg cfg1 : Cache) (ups : List String)
    (h : scanImages u p b files cfg = .ok (cfg1, ups)) :
    (∀ k v, List.lookup k cfg = some v → List.lookup k cfg1 = some v) ∧
      ∃ ext, cfg1 = cfg ++ ext ∧ ∀ q ∈ ext, List.lookup q.1 cfg = none :=
  scanPreservesAux u p b files cfg cfg1 ups h

/-- A constant upload oracle used to instantiate the theorems on concrete
inputs. -/
def sampleUpload : String → Except String String :=
  fun _ => .ok "https://host/x.png"

theorem sync_scan_preserves_entries_witness :
    (∀ k v, List.lookup k [("/old.png", "https://old")] = some v →
        List.lookup k [("/old.png", "https://old"),
          ("/imgs/a.png", "https://host/x.png")] = some v) ∧
      ∃ ext, [("/old.png", "https://old"), ("/imgs/a.png", "https://host/x.png")]
          = [("/old.png", "https://old")] ++ ext ∧
        ∀ q ∈ ext, List.lookup q.1 [("/old.png", "https://old")] = none :=
  sync_scan_preserves_entries sampleUpload "/home" "imgs"
    [ImgFile.mk [] "a.png"] [("/old.png", "https://old")]
    [("/old.png", "https://old"), ("/imgs/a.png", "https://host/x.png")]
    ["/home/imgs/a.png"] (by rfl)

/-- A successful run of `sync_images` is a successful scan followed by the
persist-and-reload step, which by the round-trip property hands back the
scanned cache and leaves its serialization on disk. -/
theorem sync_images_ok (u : String → Except String String) (p b : String)
    (files : List ImgFile) (cfg : Cache) (disk : Disk) (cfgF : Cache)
    (ups : List String) (disk2 : Disk)
    (h : sync_images u p b files cfg disk = (.ok (cfgF, ups), disk2)) :
    scanImages u p b files cfg = .ok (cfgF, ups) ∧ disk2 = save_config cfgF := by
  rw [sync_images] at h
  cases hs : scanImages u p b files cfg with
  | error e => simp only [hs] at h; simp at h
  | ok r =>
    obtain ⟨cfg1, ups1⟩ := r
    simp only [hs, saveLoadAux] at h
    simp only [Prod.mk.injEq, Except.ok.injEq] at h
    obtain ⟨⟨h1, h2⟩, h3⟩ := h
    subst h1
    subst h2
    exact ⟨rfl, h3.symm⟩

/-- C1.  When `sync_images` completes successfully, every walked file whose
name passes the image-extension test (lowercased name ending in one of
`.png .jpg .jpeg .gif .bmp .webp`) has an entry in the resulting cache
under its key: the path relative to the parent of the image root, with
backslashes replaced by forward slashes and a leading `/` prepended
(`relKey`). -/
theorem sync_images_covers (u : String → Except String String) (p b : String)
    (files : List ImgFile) (cfg : Cache) (disk : Disk) (cfgF : Cache)
    (ups : List String) (disk2 : Disk)
    (h : sync_images u p b files cfg disk = (.ok (cfgF, ups), disk2)) :
    ∀ f ∈ files, isImageFile f.fname = true →
      (List.lookup (relKey b f) cfgF).isSome = true := by
  have hok := sync_images_ok u p b files cfg disk cfgF ups disk2 h
  exact scanImages_covers u p b files cfg cfgF ups hok.1

theorem sync_images_covers_witness :
    (List.lookup (relKey "imgs" (ImgFile.mk [] "a.png"))
      [("/imgs/a.png", "https://host/x.png")]).isSome = true :=
  sync_images_covers sampleUpload "/home" "imgs" [ImgFile.mk [] "a.png"] [] none
    [("/imgs/a.png", "https://host/x.png")] ["/home/imgs/a.png"]
    (save_config [("/imgs/a.png", "https://host/x.png")]) (by rfl)
    (ImgFile.mk [] "a.png") (by simp) (by rfl)

/-- C3.  Running `sync_images` a second time over the same image tree,
starting from the cache and backing file produced by a successful first
run, performs zero upload calls: the second run succeeds for an arbitrary
upload oracle (which is therefore never invoked), reports an empty list of
uploaded paths, and returns the cache unchanged. -/
theorem sync_images_idempotent (u u2 : String → Except String String)
    (p b : String) (files : List ImgFile) (cfg : Cache) (disk : Disk)
    (cfgF : Cache) (ups : List String) (disk2 : Disk)
    (h : sync_images u p b files cfg disk = (.ok (cfgF, ups), disk2)) :
    sync_images u2 p b files cfgF disk2 = (.ok (cfgF, []), save_config cfgF) := by
  have hok := sync_images_ok u p b files cfg disk cfgF ups disk2 h
  have hcov := scanImages_covers u p b files cfg cfgF ups hok.1
  have hskip := scanImages_skip u2 p b files cfgF hcov
  rw [sync_images]
  simp only [hskip, saveLoadAux]

theorem sync_images_idempotent_witness :
    sync_images (fun _ => .error "no network") "/home" "imgs"
      [ImgFile.mk [] "a.png"] [("/imgs/a.png", "https://host/x.png")]
      (save_config [("/imgs/a.png", "https://host/x.png")])
    = (.ok ([("/imgs/a.png", "https://host/x.png")], []),
        save_config [("/imgs/a.png", "https://host/x.png")]) :=
  sync_images_idempotent sampleUpload (fun _ => .error "no network") "/home" "imgs"
    [ImgFile.mk [] "a.png"] [] none [("/imgs/a.png", "https://host/x.png")]
    ["/home/imgs/a.png"] (save_config [("/imgs/a.png", "https://host/x.png")])
    (by rfl)

/-- C10.  If the scan phase aborts with an error (the only error source in
it is an upload call), `sync_images` propagates that error and the backing
file keeps exactly its previous content: persistence happens only once,
after the whole walk has completed, so entries recorded in memory during
the aborted run never reach the disk. -/
theorem sync_images_abort (u : String → Except String String) (p b : String)
    (files : List ImgFile) (cfg : Cache) (disk : Disk) (e : String)
    (h : scanImages u p b files cfg = .error e) :
    sync_images u p b files cfg disk = (.error e, disk) := by
  rw [sync_images]
  simp only [h]

theorem sync_images_abort_witness :
    sync_images (fun _ => .error "boom") "/home" "imgs"
      [ImgFile.mk [] "a.png"] [] (some "OLD CONTENT")
    = (.error "boom", some "OLD CONTENT") :=
  sync_images_abort (fun _ => .error "boom") "/home" "imgs"
    [ImgFile.mk [] "a.png"] [] (some "OLD CONTENT") "boom" (by rfl)

/-! ## The reference pattern of the document rewriter

`IMGPATTERN` in the source is the regular expression

    !\[.*?\]\((.*?)\)|<img.*?src *= *[QUOTE](.*?)[QUOTE].*?>

(with QUOTE standing for the character class of the two quote characters).
`re.findall` scans each line left to right; at every position it first
tries the Markdown alternative, then the inline-markup alternative, and on
a match continues after its end.  The lazy `.*?` pieces match the shortest
stretch of non-newline characters that lets the rest of the alternative
succeed, backtracking to longer stretches when needed.  The two defs below
implement exactly that search: `splitsUpTo`/`splitsUptoStr` enumerate, in
increasing length, the candidate stretches a lazy `.*?` can take up to a
stop character (or a literal string), and each alternative takes the first
candidate for which the remainder of the pattern matches. -/

/-- All ways to split `s` as `pre ++ [c] ++ post` with `c` one of the stop
characters and `pre` free of newlines, shortest `pre` first: the candidate
list of a lazy `.*?` followed by a character class. -/
def splitsUpTo (stops : List Char) : List Char → List (List Char × List Char)
  | [] => []
  | c :: rest =>
    (if stops.contains c then [([], rest)] else []) ++
      (if c = '\x0a' then []
       else (splitsUpTo stops rest).map (fun p => (c :: p.1, p.2)))

/-- All ways to split `s` as `pre ++ pat ++ post` with `pre` free of
newlines, shortest `pre` first: the candidate list of a lazy `.*?` followed
by a literal string. -/
def splitsUptoStr (pat : List Char) : List Char → List (List Char × List Char)
  | [] => []
  | c :: rest =>
    (if startsList pat (c :: rest) then [([], (c :: rest).drop pat.length)] else []) ++
      (if c = '\x0a' then []
       else (splitsUptoStr pat rest).map (fun p => (c :: p.1, p.2)))

/-- Match the first alternative `!\[.*?\]\((.*?)\)` at the head of `s`,
returning the capture and the input after the match. -/
def tryAlt1 (s : List Char) : Option (String × List Char) :=
  match s with
  | '!' :: '[' :: s1 =>
    (splitsUpTo [']'] s1).findSome? (fun q =>
      match q.2 with
      | '(' :: s3 =>
        match splitsUpTo [')'] s3 with
        | [] => none
        | (cap, s4) :: _ => some (String.mk cap, s4)
      | _ => none)
  | _ => none

/-- The two quote characters of the character class in `IMGPATTERN`. -/
def quoteChars : List Char := ['\x27', '"']

/-- Match the second alternative `<img.*?src *= *[QUOTE](.*?)[QUOTE].*?>`
at the head of `s`, returning the capture and the input after the match.
The greedy space runs around `=` are equivalent to skipping spaces, since a
space can never satisfy the following literal. -/
def tryAlt2 (s : List Char) : Option (String × List Char) :=
  match s with
  | '<' :: 'i' :: 'm' :: 'g' :: s1 =>
    (splitsUptoStr ['s', 'r', 'c'] s1).findSome? (fun q =>
      match (q.2.dropWhile (fun c => c = ' ')) with
      | '=' :: s4 =>
        match (s4.dropWhile (fun c => c = ' ')) with
        | qc :: s5 =>
          if quoteChars.contains qc then
            (splitsUpTo quoteChars s5).findSome? (fun q2 =>
              match splitsUpTo ['>'] q2.2 with
              | [] => none
              | (_, s7) :: _ => some (String.mk q2.1, s7))
          else none
        | [] => none
      | _ => none)
  | _ => none

/-- One `re.findall` step at the current position: try the first
alternative, then the second; produce the tuple of the two capture groups
(the slot of the other alternative is the empty string) and the input
after the match. -/
def matchAt (s : List Char) : Option (String × String × List Char) :=
  match tryAlt1 s with
  | some (cap, rest) => some (cap, "", rest)
  | none =>
    match tryAlt2 s with
    | some (cap, rest) => some ("", cap, rest)
    | none => none

/-- The `re.findall` scan: try to match at each position, and after a
match continue right after it.  Every match consumes at least one
character, so the input length is enough fuel. -/
def findallAux : Nat → List Char → List (String × String)
  | 0, _ => []
  | _, [] => []
  | fuel + 1, c :: rest =>
    match matchAt (c :: rest) with
    | some (g1, g2, rest2) => (g1, g2) :: findallAux fuel rest2
    | none => findallAux fuel rest

/-- `re.findall(IMGPATTERN, line)`. -/
def findall (line : String) : List (String × String) :=
  findallAux line.data.length line.data

/-- Line 66 of the source: flatten the capture tuples and drop the empty
slots: `[item for t in urls for item in t if item]`. -/
def extractUrls (line : String) : List String :=
  ((findall line).map (fun t => [t.1, t.2])).flatten.filter (fun u => u ≠ "")

/-! ## Document rewriter (`replace_img_urls_in_md`, `replace_all_md_images`) -/

/-- The message of the `ValueError` raised on a cache miss (line 73). -/
def missingErr (u : String) : String :=
  "URL \x27" ++ u ++ "\x27 not found in config. Should sync images first."

/-- The inner loop over the extracted targets of one line (lines 67 to 74):
a non-empty target that does not start with `http` is looked up in the
cache; on a hit every occurrence of the target in the current line is
replaced by the cached URL and the change flag is set, on a miss the
`ValueError` aborts everything.  Other targets leave the line untouched. -/
def processUrls (cfg : Cache) : List String → String → Bool → Except String (String × Bool)
  | [], line, rep => .ok (line, rep)
  | url :: rest, line, rep =>
    if url.length != 0 && !(pyStartsWith url "http") then
      match List.lookup url cfg with
      | some newUrl => processUrls cfg rest (pyReplace line url newUrl) true
      | none => .error (missingErr url)
    else processUrls cfg rest line rep

/-- The loop over the lines of one document (lines 62 to 75), accumulating
the rewritten content and the change flag. -/
def processLinesAux (cfg : Cache) : List String → String → Bool → Except String (String × Bool)
  | [], acc, rep => .ok (acc, rep)
  | l :: ls, acc, rep =>
    match processUrls cfg (extractUrls l) l rep with
    | .error e => .error e
    | .ok (l2, rep2) => processLinesAux cfg ls (acc ++ l2) rep2

/-- `file.readlines()`: split after each newline, keeping the newline at
the end of each line (text-mode universal newlines are modelled as the
plain `\n` they translate to). -/
def readlinesAux : List Char → List Char → List String
  | [], acc => if acc.isEmpty then [] else [String.mk acc.reverse]
  | c :: rest, acc =>
    if c = '\x0a' then String.mk (acc.reverse ++ ['\x0a']) :: readlinesAux rest []
    else readlinesAux rest (c :: acc)

/-- `file.readlines()` on the whole document content. -/
def pyReadlines (content : String) : List String :=
  readlinesAux content.data []

/-- `ImageMarkdownSync.replace_img_urls_in_md` up to the final write: the
new content to be written and the change flag, or the propagated error.
On success the caller overwrites the file with the returned content; on an
error the exception propagates before the write-mode `open`, so the file is
not touched. -/
def replace_img_urls_in_md (cfg : Cache) (content : String) :
    Except String (String × Bool) :=
  processLinesAux cfg (pyReadlines content) "" false

/-- `ImageMarkdownSync.replace_all_md_images` over the document store,
modelled as the list of file contents in the order `get_all_md_files`
returns them: each document is rewritten in turn and written back; the
first error stops the batch, leaving the failing document and every later
one with their old content. -/
def replace_all_md_images (cfg : Cache) : List String → Except String Unit × List String
  | [] => (.ok (), [])
  | d :: ds =>
    match replace_img_urls_in_md cfg d with
    | .error e => (.error e, d :: ds)
    | .ok (d2, _) =>
      match replace_all_md_images cfg ds with
      | (r, ds2) => (r, d2 :: ds2)

/-- A target that triggers the cache-miss error: non-empty, not starting
with `http`, and absent from the cache. -/
def badUrl (cfg : Cache) (u : String) : Prop :=
  u ≠ "" ∧ pyStartsWith u "http" = false ∧ List.lookup u cfg = none

instance (cfg : Cache) (u : String) : Decidable (badUrl cfg u) := by
  unfold badUrl
  infer_instance

theorem strLenZero (s : String) (h : s.length = 0) : s = "" := by
  cases s with
  | mk d =>
    cases d with
    | nil => rfl
    | cons c t => simp [String.length] at h

theorem length_bne_of_ne (s : String) (h : s ≠ "") : (s.length != 0) = true := by
  simp only [bne_iff_ne, ne_eq]
  intro h0
  exact h (strLenZero s h0)

theorem ne_of_length_bne (s : String) (h : (s.length != 0) = true) : s ≠ "" := by
  simp only [bne_iff_ne, ne_eq] at h
  intro he
  subst he
  exact h rfl

/-- C6.  When the loop over a line reaches a matched target that is
non-empty, does not start with `http` and is present in the cache, that
step replaces every textual occurrence of the target inside the current
line with the cached hosted URL (`str.replace` replaces all occurrences)
and marks the file as changed. -/
theorem rewrite_hit_replaces_all (cfg : Cache) (url v : String)
    (rest : List String) (line : String) (rep : Bool)
    (h1 : url ≠ "") (h2 : pyStartsWith url "http" = false)
    (h3 : List.lookup url cfg = some v) :
    processUrls cfg (url :: rest) line rep
      = processUrls cfg rest (pyReplace line url v) true := by
  rw [processUrls]
  have hlen := length_bne_of_ne url h1
  rw [if_pos (by rw [hlen, h2]; rfl)]
  simp only [h3]

theorem rewrite_hit_replaces_all_witness :
    processUrls [("/imgs/a.png", "https://host/a.png")]
      (extractUrls "![alt](/imgs/a.png)") "![alt](/imgs/a.png)" false
    = .ok ("![alt](https://host/a.png)", true) := by
  have he : extractUrls "![alt](/imgs/a.png)" = ["/imgs/a.png"] := by decide
  rw [he, rewrite_hit_replaces_all [("/imgs/a.png", "https://host/a.png")]
    "/imgs/a.png" "https://host/a.png" [] "![alt](/imgs/a.png)" false
    (by decide) (by decide) (by rfl)]
  rfl

/-- C7.  A matched target that starts with `http` is skipped: the loop
step neither consults the cache nor modifies the line, whatever the cache
contains. -/
theorem rewrite_http_untouched (cfg : Cache) (url : String)
    (rest : List String) (line : String) (rep : Bool)
    (h : pyStartsWith url "http" = true) :
    processUrls cfg (url :: rest) line rep = processUrls cfg rest line rep := by
  rw [processUrls]
  rw [if_neg (by rw [h]; simp)]

theorem rewrite_http_untouched_witness :
    processUrls [("http://already.remote/img.png", "https://something.else/y.png")]
      (extractUrls "![x](http://already.remote/img.png)")
      "![x](http://already.remote/img.png)" false
    = .ok ("![x](http://already.remote/img.png)", false) := by
  have he : extractUrls "![x](http://already.remote/img.png)"
      = ["http://already.remote/img.png"] := by decide
  rw [he, rewrite_http_untouched
    [("http://already.remote/img.png", "https://something.else/y.png")]
    "http://already.remote/img.png" [] "![x](http://already.remote/img.png)" false
    (by decide)]
  rfl

/-! ## The cache-miss error path -/

theorem procUrls_error_of_bad (cfg : Cache) (urls : List String)
    (hb : ∃ u ∈ urls, badUrl cfg u) :
    ∃ u0, u0 ∈ urls ∧ badUrl cfg u0 ∧
      ∀ line rep, processUrls cfg urls line rep = .error (missingErr u0) := by
  induction urls with
  | nil => obtain ⟨u, hu, _⟩ := hb; simp at hu
  | cons w rest ih =>
    by_cases hw : badUrl cfg w
    · refine ⟨w, by simp, hw, ?_⟩
      intro line rep
      obtain ⟨hne, hhttp, hnone⟩ := hw
      rw [processUrls]
      rw [if_pos (by rw [length_bne_of_ne w hne, hhttp]; rfl)]
      simp only [hnone]
    · have hb2 : ∃ u ∈ rest, badUrl cfg u := by
        obtain ⟨u, hu, hbu⟩ := hb
        cases hu with
        | head => exact absurd hbu hw
        | tail _ h2 => exact ⟨u, h2, hbu⟩
      obtain ⟨u0, hu0, hbu0, hrun⟩ := ih hb2
      refine ⟨u0, by simp [hu0], hbu0, ?_⟩
      intro line rep
      rw [processUrls]
      by_cases hcond : (w.length != 0 && !(pyStartsWith w "http")) = true
      · rw [if_pos hcond]
        rw [Bool.and_eq_true, Bool.not_eq_true'] at hcond
        cases hlk : List.lookup w cfg with
        | none =>
          exact absurd ⟨ne_of_length_bne w hcond.1, hcond.2, hlk⟩ hw
        | some nv =>
          simp only [hlk]
          exact hrun _ _
      · rw [if_neg hcond]
        exact hrun _ _

theorem procUrls_ok_of_no_bad (cfg : Cache) (urls : List String)
    (h : ∀ u ∈ urls, ¬badUrl cfg u) :
    ∀ line rep, ∃ l2 rep2, processUrls cfg urls line rep = .ok (l2, rep2) := by
  induction urls with
  | nil => exact fun line rep => ⟨line, rep, rfl⟩
  | cons w rest ih =>
    intro line rep
    rw [processUrls]
    by_cases hcond : (w.length != 0 && !(pyStartsWith w "http")) = true
    · rw [if_pos hcond]
      rw [Bool.and_eq_true, Bool.not_eq_true'] at hcond
      cases hlk : List.lookup w cfg with
      | none =>
        exact absurd ⟨ne_of_length_bne w hcond.1, hcond.2, hlk⟩ (h w (by simp))
      | some nv =>
        simp only [hlk]
        exact ih (fun x hx => h x (by simp [hx])) _ _
    · rw [if_neg hcond]
      exact ih (fun x hx => h x (by simp [hx])) _ _

theorem procLines_error_of_bad (cfg : Cache) (lines : List String)
    (hb : ∃ l ∈ lines, ∃ u ∈ extractUrls l, badUrl cfg u) :
    ∃ u0, badUrl cfg u0 ∧ (∃ l0 ∈ lines, u0 ∈ extractUrls l0) ∧
      ∀ acc rep, processLinesAux cfg lines acc rep = .error (missingErr u0) := by
  induction lines with
  | nil => obtain ⟨l, hl, _⟩ := hb; simp at hl
  | cons l ls ih =>
    by_cases hl : ∃ u ∈ extractUrls l, badUrl cfg u
    · obtain ⟨u0, hu0, hbu0, hrun⟩ := procUrls_error_of_bad cfg _ hl
      refine ⟨u0, hbu0, ⟨l, by simp, hu0⟩, ?_⟩
      intro acc rep
      rw [processLinesAux]
      simp only [hrun l rep]
    · have hb2 : ∃ l2 ∈ ls, ∃ u ∈ extractUrls l2, badUrl cfg u := by
        obtain ⟨l2, hl2, hu⟩ := hb
        cases hl2 with
        | head => exact absurd hu hl
        | tail _ h2 => exact ⟨l2, h2, hu⟩
      obtain ⟨u0, hbu0, ⟨l0, hl0, hu0⟩, hrun⟩ := ih hb2
      refine ⟨u0, hbu0, ⟨l0, by simp [hl0], hu0⟩, ?_⟩
      intro acc rep
      rw [processLinesAux]
      push_neg at hl
      obtain ⟨l2, rep2, hok⟩ := procUrls_ok_of_no_bad cfg (extractUrls l) hl l rep
      simp only [hok]
      exact hrun _ _

theorem batch_aborts_aux (cfg : Cache) (e : String) (d : String)
    (post : List String) (pre : List String)
    (hpre : ∀ q ∈ pre, ∃ r, replace_img_urls_in_md cfg q = .ok r)
    (hd : replace_img_urls_in_md cfg d = .error e) :
    ∃ pre2 : List String, pre2.length = pre.length ∧
      replace_all_md_images cfg (pre ++ d :: post)
        = (.error e, pre2 ++ d :: post) := by
  induction pre with
  | nil =>
    refine ⟨[], rfl, ?_⟩
    show replace_all_md_images cfg (d :: post) = (.error e, d :: post)
    rw [replace_all_md_images]
    simp only [hd]
  | cons q qs ih =>
    obtain ⟨r, hr⟩ := hpre q (by simp)
    obtain ⟨d2, fl⟩ := r
    obtain ⟨pre2, hlen, hrest⟩ := ih (fun x hx => hpre x (by simp [hx]))
    refine ⟨d2 :: pre2, by simp [hlen], ?_⟩
    rw [List.cons_append, replace_all_md_images]
    simp only [hr, hrest]
    rfl

/-- C2.  If a document contains a matched target that is non-empty, does
not start with `http` and is absent from the cache, and every document
before it in the batch rewrites cleanly, then the batch fails with the
`ValueError` naming a missing target of that document (and telling the
operator to sync first), the offending document keeps its old content (no
write happens to it), and every later document in the batch keeps its old
content as well. -/
theorem rewrite_missing_aborts (cfg : Cache) (pre post : List String) (d : String)
    (hpre : ∀ q ∈ pre, ∃ r, replace_img_urls_in_md cfg q = .ok r)
    (hbad : ∃ l ∈ pyReadlines d, ∃ u ∈ extractUrls l, badUrl cfg u) :
    ∃ u0 pre2, badUrl cfg u0 ∧ (∃ l ∈ pyReadlines d, u0 ∈ extractUrls l) ∧
      pre2.length = pre.length ∧
      replace_all_md_images cfg (pre ++ d :: post)
        = (.error (missingErr u0), pre2 ++ d :: post) := by
  obtain ⟨u0, hbu0, hld, hrun⟩ := procLines_error_of_bad cfg (pyReadlines d) hbad
  have hd : replace_img_urls_in_md cfg d = .error (missingErr u0) := by
    rw [replace_img_urls_in_md]
    exact hrun "" false
  obtain ⟨pre2, hlen, hres⟩ := batch_aborts_aux cfg (missingErr u0) d post pre hpre hd
  exact ⟨u0, pre2, hbu0, hld, hlen, hres⟩

theorem rewrite_missing_aborts_witness :
    ∃ u0 pre2,
      badUrl [("/imgs/ok.png", "https://host/ok.png")] u0 ∧
      (∃ l ∈ pyReadlines "look ![x](/imgs/missing.png) here", u0 ∈ extractUrls l) ∧
      pre2.length = ["![y](/imgs/ok.png)"].length ∧
      replace_all_md_images [("/imgs/ok.png", "https://host/ok.png")]
          (["![y](/imgs/ok.png)"] ++ "look ![x](/imgs/missing.png) here" :: ["later document"])
        = (.error (missingErr u0),
            pre2 ++ "look ![x](/imgs/missing.png) here" :: ["later document"]) :=
  rewrite_missing_aborts [("/imgs/ok.png", "https://host/ok.png")]
    ["![y](/imgs/ok.png)"] ["later document"] "look ![x](/imgs/missing.png) here"
    (by
      intro q hq
      simp only [List.mem_singleton] at hq
      subst hq
      exact ⟨("![y](https://host/ok.png)", true), by rfl⟩)
    (by decide)

/-! ## Upload client (`SMMSClient.upload`) -/

/-- The JSON body of the upload response, with each field optional to
model the presence or absence of the corresponding key in the Python
dict: subscripting `resp` with `success`, `code`, `images` or `message`,
and `resp` then `data` then `url`. -/
structure ApiResp where
  success : Option Bool
  dataUrl : Option String
  code : Option String
  images : Option String
  message : Option String
deriving DecidableEq

/-- Subscripting the response dict: a missing key raises `KeyError`. -/
def getKey {α : Type} (k : String) (v : Option α) : Except String α :=
  match v with
  | some x => .ok x
  | none => .error ("KeyError: " ++ k)

/-- The body of the `try` block in `SMMSClient.upload` (lines 110 to 115):
on `success` return `data.url`; otherwise, on the duplicate-content signal
`code == "image_repeated"` return the `images` field; otherwise raise with
the response `message`. -/
def uploadParse (r : ApiResp) : Except String String :=
  match getKey "success" r.success with
  | .error e => .error e
  | .ok s =>
    if s then getKey "url" r.dataUrl
    else
      match getKey "code" r.code with
      | .error e => .error e
      | .ok c =>
        if c = "image_repeated" then getKey "images" r.images
        else
          match getKey "message" r.message with
          | .error e => .error e
          | .ok m => .error ("Upload failed: " ++ m)

/-- `SMMSClient.upload`: the argument is the outcome of the network call
plus `.json()` decoding (`Except.error` for a transport or decode
failure).  The `except` clause re-raises every failure from the `try`
block wrapped in the upload-error message. -/
def upload (resp : Except String ApiResp) : Except String String :=
  match resp with
  | .error e => .error ("Error uploading image: " ++ e)
  | .ok r =>
    match uploadParse r with
    | .ok u => .ok u
    | .error e => .error ("Error uploading image: " ++ e)

/-- C8.  On the duplicate-content signal (`success` false together with
`code = "image_repeated"`), `upload` returns the pre-existing URL carried
in the `images` field instead of raising; on a transport failure, and on
any other non-success response, it raises an upload error. -/
theorem upload_duplicate_ok_others_fail :
    (∀ r u2, r.success = some false → r.code = some "image_repeated" →
      r.images = some u2 → upload (.ok r) = .ok u2) ∧
    (∀ e, ∃ e2, upload (.error e) = .error e2) ∧
    (∀ r, r.success = some false → r.code ≠ some "image_repeated" →
      ∃ e2, upload (.ok r) = .error e2) := by
  refine ⟨?_, ?_, ?_⟩
  · intro r u2 hs hc hi
    rw [upload, uploadParse, hs]
    simp only [getKey, hc, hi]
    rfl
  · intro e
    exact ⟨"Error uploading image: " ++ e, rfl⟩
  · intro r hs hc
    rw [upload, uploadParse, hs]
    simp only [getKey, Bool.false_eq_true, if_false]
    cases hcode : r.code with
    | none => exact ⟨_, rfl⟩
    | some c =>
      simp only [getKey]
      have hne : ¬c = "image_repeated" := fun he => hc (by rw [hcode, he])
      rw [if_neg hne]
      cases hm : r.message with
      | none => exact ⟨_, rfl⟩
      | some m => exact ⟨_, rfl⟩

theorem upload_duplicate_ok_others_fail_witness :
    upload (.ok (ApiResp.mk (some false) none (some "image_repeated")
        (some "https://host/pre-existing.png") none))
      = .ok "https://host/pre-existing.png" ∧
    (∃ e2, upload (.error "connection reset") = .error e2) ∧
    (∃ e2, upload (.ok (ApiResp.mk (some false) none (some "unauthorized")
        none (some "bad token"))) = .error e2) :=
  ⟨upload_duplicate_ok_others_fail.1
      (ApiResp.mk (some false) none (some "image_repeated")
        (some "https://host/pre-existing.png") none)
      "https://host/pre-existing.png" rfl rfl rfl,
    upload_duplicate_ok_others_fail.2.1 "connection reset",
    upload_duplicate_ok_others_fail.2.2
      (ApiResp.mk (some false) none (some "unauthorized") none (some "bad token"))
      rfl (by decide)⟩
